import Mathlib

/-
Shallow embedding of the disk cache of this repository
(src/src/test/disk_cache.rs): the `DiskCache` struct with its
path-derivation functions (`get_cache_filename`,
`get_cache_filename_with_extension`) and its persistence operations
(`new`, `ensure_dir_exists`, `get`, `set`).

Modelling conventions:
- `PathBuf` is a pair of an absolute-flag and a list of components,
  mirroring Rust `std::path::PathBuf` on a POSIX target
  (the `cfg!(target_os = "windows")` block of `get_cache_filename`
  is compiled out on such a target, so it is not modelled).
- `Url` records exactly the observations the code makes of a
  `deno_core::url::Url` value: `scheme()`, `host_str()`, `port()`,
  `path_segments()` and `to_file_path()`.
- The filesystem is a state `FS`: a map from paths to byte contents,
  a set of directories, and two failure-injection fields standing for
  the environment making `create_dir_all` or the write step of
  `atomic_write_file` fail.
- Rust panics (`unwrap`, `assert!`) are modelled by the `panicked`
  constructor of `COutcome`; fallible IO returns `Except IOError`.
-/

/-- Outcome of a Rust computation that may panic. -/
inductive COutcome (α : Type) where
  | panicked : COutcome α
  | ok : α → COutcome α
deriving DecidableEq, Repr

/-- Model of `std::path::PathBuf` on a POSIX target: an absolute-flag
(whether the path starts with the root `/`) and the list of normal
components. -/
structure PathBuf where
  absolute : Bool
  comps : List String
deriving DecidableEq, Repr

/-- Model of `Path::join`: an absolute argument replaces the receiver,
a relative argument is appended. -/
def PathBuf.join (a b : PathBuf) : PathBuf :=
  if b.absolute then b else ⟨a.absolute, a.comps ++ b.comps⟩

/-- Model of `Path::parent`: `None` exactly for the root `/` and for the
empty path, otherwise the path with its last component dropped. -/
def PathBuf.parentDir (p : PathBuf) : Option PathBuf :=
  match p.comps with
  | [] => none
  | _ :: _ => some ⟨p.absolute, p.comps.dropLast⟩

/-- Display form of a path, used inside error messages. -/
def pathRepr (p : PathBuf) : String :=
  (if p.absolute then "/" else "") ++ String.intercalate "/" p.comps

/-- Model of Rust `format "{:#?}"` on a `PathBuf`: the quoted display form. -/
def pathDebug (p : PathBuf) : String :=
  "\"" ++ pathRepr p ++ "\""

/-- Model of `std::io::ErrorKind`. -/
inductive IOErrorKind where
  | notFound
  | permissionDenied
  | other : String → IOErrorKind
deriving DecidableEq, Repr

/-- Model of `std::io::Error`: a kind plus the `Display` message. -/
structure IOError where
  kind : IOErrorKind
  msg : String
deriving DecidableEq, Repr

/-- The `Display` message of the error `std::fs::read` produces for a
missing file on a POSIX target; it does not mention the path. -/
def rawNotFoundMsg : String := "No such file or directory (os error 2)"

/-- Filesystem state: file contents, existing directories, and injected
failures for directory creation and for the write step (the step before
the rename) of the atomic write. -/
structure FS where
  files : PathBuf → Option (List Nat)
  dirs : PathBuf → Bool
  mkdirErr : Option IOError
  writeErr : Option IOError

/-- Model of `std::fs::read`: the contents at the path, or a not-found
error carrying only the raw OS message. -/
def fsRead (fs : FS) (p : PathBuf) : Except IOError (List Nat) :=
  match fs.files p with
  | some d => Except.ok d
  | none => Except.error ⟨IOErrorKind.notFound, rawNotFoundMsg⟩

/-- Model of `std::fs::create_dir_all`: marks the directory as existing,
unless a failure is injected. -/
def create_dir_all (fs : FS) (p : PathBuf) : Except IOError FS :=
  match fs.mkdirErr with
  | some e => Except.error e
  | none => Except.ok { fs with dirs := fun q => q = p || fs.dirs q }

/-- Embedding of `with_io_context` (src/src/test/disk_cache.rs lines
20-25): same kind, message extended with the context. -/
def with_io_context (e : IOError) (context : String) : IOError :=
  ⟨e.kind, e.msg ++ " (for '" ++ context ++ "')"⟩

/-- Embedding of the `DiskCache` struct. -/
structure DiskCache where
  location : PathBuf
deriving DecidableEq, Repr

/-- Embedding of `DiskCache::new`: `assert!(location.is_absolute())`
panics on a relative root, otherwise the root is stored verbatim and the
filesystem is untouched. -/
def DiskCache.new (location : PathBuf) (fs : FS) : COutcome (DiskCache × FS) :=
  if location.absolute then COutcome.ok (⟨location⟩, fs) else COutcome.panicked

/-- Embedding of `DiskCache::ensure_dir_exists`: a no-op if the directory
exists, otherwise `create_dir_all` with the error replaced by one of the
same kind whose message names the path. -/
def DiskCache.ensure_dir_exists (_self : DiskCache) (fs : FS) (path : PathBuf) :
    Except IOError FS :=
  if fs.dirs path then Except.ok fs
  else
    match create_dir_all fs path with
    | Except.ok fs' => Except.ok fs'
    | Except.error e =>
        Except.error ⟨e.kind,
          "Could not create TypeScript compiler cache location: " ++ pathDebug path
            ++ "\nCheck the permission of the directory."⟩

/-- Modelled from the spec: `fs_util::atomic_write_file` is used by
`DiskCache::set` but the `fs_util` module is not under src/. Per the
spec (section 4.2), it writes `data` to a temporary sibling file and then
renames it into place; a failure injected before the rename (the
`writeErr` field) leaves the target untouched, with at most the
temporary file written. The `CACHE_PERM` permission argument has no
observable effect in this model. -/
def atomic_write_file (fs : FS) (p : PathBuf) (data : List Nat) :
    FS × Option IOError :=
  let tmp : PathBuf := ⟨p.absolute, p.comps.dropLast ++ [(p.comps.getLast?.getD "") ++ ".tmp"]⟩
  match fs.writeErr with
  | some e =>
      ({ fs with files := fun q => if q = tmp then some data else fs.files q }, some e)
  | none =>
      ({ fs with files := fun q =>
          if q = p then some data
          else if q = tmp then none
          else fs.files q }, none)

/-- Embedding of `DiskCache::get` (lines 134-137): join the filename onto
the root and read; the read error is returned as-is. -/
def DiskCache.get (self : DiskCache) (fs : FS) (filename : PathBuf) :
    Except IOError (List Nat) :=
  fsRead fs (self.location.join filename)

/-- Embedding of `DiskCache::set` (lines 139-147): join, ensure the
parent directory when there is one, then atomic write, with the write
error annotated by `with_io_context` using the debug form of the path. -/
def DiskCache.set (self : DiskCache) (fs : FS) (filename : PathBuf)
    (data : List Nat) : FS × Option IOError :=
  let path := self.location.join filename
  let afterDirs : Except IOError FS :=
    match path.parentDir with
    | some parentD => self.ensure_dir_exists fs parentD
    | none => Except.ok fs
  match afterDirs with
  | Except.error e => (fs, some e)
  | Except.ok fs1 =>
      match atomic_write_file fs1 path data with
      | (fs2, some e) => (fs2, some (with_io_context e (pathDebug path)))
      | (fs2, none) => (fs2, none)

/-- Model of `deno_core::url::Url`, recording exactly the observations
`get_cache_filename` makes of a URL value: `scheme()`, `host_str()`,
`port()`, `path_segments()` and `to_file_path()`. -/
structure Url where
  scheme : String
  host : Option String
  port : Option Nat
  pathSegments : Option (List String)
  toFilePath : Except Unit PathBuf
deriving Repr

/-- Modelled from the spec: `http_cache::url_to_filename` is called by
`get_cache_filename` for the `http`, `https` and `data` schemes but the
`http_cache` module is not under src/. Per the spec (sections 4.1 and 6)
it is a network-locator-to-filename transform producing a relative path
`<scheme>/<encoded-authority-or-host>/<path segments...>` or none, with
the colon of a port mangled away. -/
def url_to_filename (url : Url) : Option PathBuf :=
  match url.host with
  | none => none
  | some h =>
      let authority :=
        match url.port with
        | some port => h ++ "_" ++ toString port
        | none => h
      some ⟨false, url.scheme :: authority :: (url.pathSegments.getD [])⟩

/-- Embedding of `DiskCache::get_cache_filename` (lines 49-115) on a
POSIX target (`cfg!(target_os = "windows")` is false, so the drive/UNC
prefix block is skipped). The scheme is pushed first; the `wasm` arm
unwraps `host_str()` and `path_segments()` (a panic when absent); the
network arms replace the whole path by `url_to_filename`; the `file` arm
converts to a file path, returning `none` on failure, strips the leading
root so the components are relative, and appends them; any other scheme
returns `none`. -/
def DiskCache.get_cache_filename (_self : DiskCache) (url : Url) :
    COutcome (Option PathBuf) :=
  let scheme := url.scheme
  let out : PathBuf := ⟨false, [scheme]⟩
  if scheme = "wasm" then
    match url.host with
    | none => COutcome.panicked
    | some host =>
        let host_port :=
          match url.port with
          | some port => host ++ "_PORT" ++ toString port
          | none => host
        match url.pathSegments with
        | none => COutcome.panicked
        | some segs => COutcome.ok (some ⟨false, out.comps ++ host_port :: segs⟩)
  else if scheme = "http" ∨ scheme = "https" ∨ scheme = "data" then
    COutcome.ok (url_to_filename url)
  else if scheme = "file" then
    match url.toFilePath with
    | Except.error _ => COutcome.ok none
    | Except.ok path =>
        let remaining : PathBuf :=
          if path.absolute then ⟨false, path.comps⟩ else path
        COutcome.ok (some (out.join remaining))
  else COutcome.ok none

/-- Splits a list of characters at its last dot: the part before and the
part after, or `none` when there is no dot. -/
def splitLastDot : List Char → Option (List Char × List Char)
  | [] => none
  | c :: rest =>
      match splitLastDot rest with
      | some (b, a) => some (c :: b, a)
      | none => if c = '.' then some ([], rest) else none

/-- Model of Rust `Path::extension` on a file name: the portion after the
last dot, or `None` when there is no dot or the name begins with its only
dot. -/
def rustExtension (f : String) : Option String :=
  match splitLastDot f.data with
  | some ([], _) => none
  | some (_, a) => some (String.mk a)
  | none => none

/-- Model of Rust `Path::file_stem` on a file name: the portion before
the last dot, or the whole name when there is no extension. -/
def rustStem (f : String) : String :=
  match splitLastDot f.data with
  | some ([], _) => f
  | some (b, _) => String.mk b
  | none => f

/-- Model of Rust `Path::with_extension` on a file name: truncate to the
stem, then append a dot and the extension when the extension is
nonempty. -/
def withExtensionName (f e : String) : String :=
  rustStem f ++ (if e = "" then "" else "." ++ e)

/-- Model of Rust `Path::extension`: the extension of the last
component. -/
def PathBuf.extensionM (p : PathBuf) : Option String :=
  match p.comps.getLast? with
  | some f => rustExtension f
  | none => none

/-- Model of Rust `Path::with_extension`: replace the extension of the
last component; a path without a file name is returned unchanged. -/
def PathBuf.withExtensionM (p : PathBuf) (e : String) : PathBuf :=
  match p.comps.getLast? with
  | some f => ⟨p.absolute, p.comps.dropLast ++ [withExtensionName f e]⟩
  | none => p

/-- Embedding of `DiskCache::get_cache_filename_with_extension` (lines
117-132): on a derived base path, set the extension when the base has
none, otherwise set it to original-dot-new. -/
def DiskCache.get_cache_filename_with_extension (self : DiskCache)
    (url : Url) (extension : String) : COutcome (Option PathBuf) :=
  match self.get_cache_filename url with
  | COutcome.panicked => COutcome.panicked
  | COutcome.ok none => COutcome.ok none
  | COutcome.ok (some base) =>
      match base.extensionM with
      | none => COutcome.ok (some (base.withExtensionM extension))
      | some original_extension =>
          let final_extension := original_extension ++ "." ++ extension
          COutcome.ok (some (base.withExtensionM final_extension))

/-- Character-list version of substring containment used to state that an
error message does or does not mention a path. -/
def isPrefB : List Char → List Char → Bool
  | [], _ => true
  | _ :: _, [] => false
  | a :: as, b :: bs => a = b && isPrefB as bs

/-- Whether `needle` occurs contiguously inside `hay`. -/
def containsB (needle : List Char) : List Char → Bool
  | [] => isPrefB needle []
  | c :: rest => isPrefB needle (c :: rest) || containsB needle rest

/-- Whether the string `pat` occurs inside the string `s`. -/
def strContains (s pat : String) : Bool :=
  containsB pat.data s.data

/-! Concrete fixtures used by witnesses and counterexamples. -/

/-- A filesystem with no files, no directories and no injected failures. -/
def fsEmpty : FS := ⟨fun _ => none, fun _ => false, none, none⟩

/-- A permission error as the OS reports it, without any path. -/
def ePerm : IOError := ⟨IOErrorKind.permissionDenied, "Permission denied (os error 13)"⟩

/-- An empty filesystem on which directory creation fails with `ePerm`. -/
def fsMkFail : FS := ⟨fun _ => none, fun _ => false, some ePerm, none⟩

/-- An empty filesystem on which the write step of the atomic write fails
with `ePerm` before the rename. -/
def fsWrFail : FS := ⟨fun _ => none, fun _ => false, none, some ePerm⟩

/-- The annotated error `ensure_dir_exists` produces on the directory
`/r/a` when `create_dir_all` fails with `ePerm`. -/
def eDirFail : IOError :=
  ⟨ePerm.kind,
    "Could not create TypeScript compiler cache location: "
      ++ pathDebug ⟨true, ["r", "a"]⟩
      ++ "\nCheck the permission of the directory."⟩

/-- The annotated error `set` produces on the target `/r/a/x` when the
atomic write fails with `ePerm`. -/
def eWrWrapped : IOError :=
  with_io_context ePerm (pathDebug (PathBuf.join ⟨true, ["r"]⟩ ⟨false, ["a", "x"]⟩))

/-! Helper lemmas. -/

theorem splitLastDot_eq (cs b a : List Char)
    (h : splitLastDot cs = some (b, a)) : cs = b ++ '.' :: a := by
  induction cs generalizing b a with
  | nil => simp [splitLastDot] at h
  | cons c rest ih =>
    rw [splitLastDot] at h
    cases hr : splitLastDot rest with
    | some p =>
      obtain ⟨b', a'⟩ := p
      rw [hr] at h
      simp only [Option.some.injEq, Prod.mk.injEq] at h
      obtain ⟨hb, ha⟩ := h
      subst hb; subst ha
      simpa using ih b' a' hr
    | none =>
      rw [hr] at h
      by_cases hc : c = '.'
      · rw [if_pos hc] at h
        simp only [Option.some.injEq, Prod.mk.injEq] at h
        obtain ⟨hb, ha⟩ := h
        subst hb; subst ha
        simp [hc]
      · rw [if_neg hc] at h
        exact absurd h (by simp)

theorem string_mk_append (l₁ l₂ : List Char) :
    String.mk (l₁ ++ l₂) = String.mk l₁ ++ String.mk l₂ := rfl

theorem rustStem_dot_ext (f o : String) (h : rustExtension f = some o) :
    f = rustStem f ++ "." ++ o := by
  unfold rustExtension at h
  unfold rustStem
  cases hs : splitLastDot f.data with
  | none => rw [hs] at h; exact absurd h (by simp)
  | some p =>
    obtain ⟨b, a⟩ := p
    cases b with
    | nil => rw [hs] at h; exact absurd h (by simp)
    | cons x xs =>
      rw [hs] at h
      have ho : String.mk a = o :=
        Option.some.inj (show some (String.mk a) = some o from h)
      have hf : f.data = (x :: xs) ++ '.' :: a := splitLastDot_eq _ _ _ hs
      have hfm : f = String.mk ((x :: xs) ++ '.' :: a) := by
        cases f with
        | mk d => exact congrArg String.mk hf
      show f = String.mk (x :: xs) ++ "." ++ o
      rw [hfm, ← ho]
      apply String.ext
      rw [String.data_append, String.data_append]
      show (x :: xs) ++ '.' :: a = (x :: xs) ++ ['.'] ++ a
      simp

theorem rustStem_of_no_ext (f : String) (h : rustExtension f = none) :
    rustStem f = f := by
  unfold rustExtension at h
  unfold rustStem
  cases hs : splitLastDot f.data with
  | none => rfl
  | some p =>
    obtain ⟨b, a⟩ := p
    cases b with
    | nil => rfl
    | cons x xs =>
      rw [hs] at h
      exact Option.noConfusion (show some (String.mk a) = (none : Option String) from h)

theorem isPrefB_append (b c : List Char) : isPrefB b (b ++ c) = true := by
  induction b with
  | nil => rfl
  | cons x xs ih => simp [isPrefB, ih]

theorem containsB_here (b c : List Char) : containsB b (b ++ c) = true := by
  cases b with
  | nil => cases c <;> simp [containsB, isPrefB]
  | cons x xs => simp [containsB, isPrefB, isPrefB_append]

theorem containsB_sandwich (a b c : List Char) :
    containsB b (a ++ b ++ c) = true := by
  induction a with
  | nil => simpa using containsB_here b c
  | cons y ys ih =>
    have ih' : containsB b (ys ++ (b ++ c)) = true := by
      simpa [List.append_assoc] using ih
    simp [containsB, List.append_assoc, ih']

theorem strContains_sandwich (s₁ pat s₂ : String) :
    strContains (s₁ ++ pat ++ s₂) pat = true := by
  unfold strContains
  rw [String.data_append, String.data_append]
  exact containsB_sandwich s₁.data pat.data s₂.data

theorem ensure_dir_exists_ok_fields (store : DiskCache) (fs fs₁ : FS)
    (p : PathBuf) (h : store.ensure_dir_exists fs p = Except.ok fs₁) :
    fs₁.files = fs.files ∧ fs₁.writeErr = fs.writeErr ∧
      fs₁.mkdirErr = fs.mkdirErr := by
  unfold DiskCache.ensure_dir_exists at h
  by_cases hd : fs.dirs p
  · rw [if_pos hd] at h
    cases h; exact ⟨rfl, rfl, rfl⟩
  · rw [if_neg hd] at h
    unfold create_dir_all at h
    cases hm : fs.mkdirErr with
    | some e => rw [hm] at h; cases h
    | none =>
      rw [hm] at h
      simp only [Except.ok.injEq] at h
      subst h
      exact ⟨rfl, rfl, rfl⟩

theorem string_append_tmp_ne (s : String) : s ++ ".tmp" ≠ s := by
  intro h
  have hlen := congrArg String.length h
  rw [String.length_append] at hlen
  have h4 : (".tmp" : String).length = 4 := rfl
  rw [h4] at hlen
  omega

theorem ensure_dir_exists_err_msg (store : DiskCache) (fs : FS) (par : PathBuf)
    (e : IOError) (hd : fs.dirs par = false) (hm : fs.mkdirErr = some e) :
    store.ensure_dir_exists fs par =
      Except.error ⟨e.kind,
        "Could not create TypeScript compiler cache location: " ++ pathDebug par
          ++ "\nCheck the permission of the directory."⟩ := by
  simp [DiskCache.ensure_dir_exists, hd, create_dir_all, hm]

theorem set_noerr (store : DiskCache) (fs : FS) (p : PathBuf) (data : List Nat)
    (hm : fs.mkdirErr = none) (hw : fs.writeErr = none) :
    (store.set fs p data).2 = none ∧
      (store.set fs p data).1.files (store.location.join p) = some data := by
  unfold DiskCache.set
  cases hpd : (store.location.join p).parentDir with
  | none => simp [hpd, atomic_write_file, hw]
  | some par =>
    by_cases hd : fs.dirs par
    · simp [hpd, DiskCache.ensure_dir_exists, hd, atomic_write_file, hw]
    · simp [hpd, DiskCache.ensure_dir_exists, hd, create_dir_all, hm,
        atomic_write_file, hw]

theorem set_files_of_ok (store : DiskCache) (fs fs' : FS) (p : PathBuf)
    (data : List Nat) (h : store.set fs p data = (fs', none)) :
    fs'.files (store.location.join p) = some data := by
  simp only [DiskCache.set] at h
  split at h
  · simp at h
  · rename_i fs1 heq1
    split at h
    · simp at h
    · rename_i fs2 heq2
      simp only [Prod.mk.injEq, and_true] at h
      subst h
      simp only [atomic_write_file] at heq2
      split at heq2
      · simp at heq2
      · simp only [Prod.mk.injEq, and_true] at heq2
        rw [← heq2]
        simp

theorem tmp_sibling_ne (p : PathBuf) :
    (⟨p.absolute, p.comps.dropLast ++ [(p.comps.getLast?.getD "") ++ ".tmp"]⟩ : PathBuf) ≠ p := by
  intro h
  have hc : p.comps.dropLast ++ [(p.comps.getLast?.getD "") ++ ".tmp"] = p.comps := by
    have := congrArg PathBuf.comps h
    simpa using this
  cases hl : p.comps.getLast? with
  | none =>
    rw [List.getLast?_eq_none_iff] at hl
    rw [hl] at hc
    simp at hc
  | some g =>
    have h1 : (p.comps.dropLast ++ [(p.comps.getLast?.getD "") ++ ".tmp"]).getLast?
        = some ((p.comps.getLast?.getD "") ++ ".tmp") := List.getLast?_concat _
    rw [hc, hl] at h1
    simp only [hl, Option.getD_some, Option.some.injEq] at h1
    exact string_append_tmp_ne g h1.symm

theorem string_append_assoc (a b c : String) : (a ++ b) ++ c = a ++ (b ++ c) := by
  apply String.ext
  rw [String.data_append, String.data_append, String.data_append,
    String.data_append]
  exact List.append_assoc a.data b.data c.data

theorem string_append_empty (s : String) : s ++ "" = s := by
  apply String.ext
  rw [String.data_append]
  exact List.append_nil s.data

theorem set_write_err (store : DiskCache) (fs : FS) (p : PathBuf)
    (data : List Nat) (e : IOError) (hm : fs.mkdirErr = none)
    (hw : fs.writeErr = some e) :
    (store.set fs p data).2 =
      some (with_io_context e (pathDebug (store.location.join p))) := by
  unfold DiskCache.set
  cases hpd : (store.location.join p).parentDir with
  | none => simp [hpd, atomic_write_file, hw]
  | some par =>
    by_cases hd : fs.dirs par
    · simp [hpd, DiskCache.ensure_dir_exists, hd, atomic_write_file, hw]
    · simp [hpd, DiskCache.ensure_dir_exists, hd, create_dir_all, hm,
        atomic_write_file, hw]

theorem set_mkdir_err (store : DiskCache) (fs : FS) (p par : PathBuf)
    (data : List Nat) (e : IOError)
    (hpd : (store.location.join p).parentDir = some par)
    (hd : fs.dirs par = false) (hm : fs.mkdirErr = some e) :
    (store.set fs p data).2 =
      some ⟨e.kind,
        "Could not create TypeScript compiler cache location: " ++ pathDebug par
          ++ "\nCheck the permission of the directory."⟩ := by
  simp only [DiskCache.set]
  rw [hpd]
  dsimp only
  rw [ensure_dir_exists_err_msg store fs par e hd hm]

theorem get_cache_filename_head (store : DiskCache) (u : Url) (p : PathBuf)
    (h : store.get_cache_filename u = COutcome.ok (some p)) :
    p.comps.head? = some u.scheme := by
  simp only [DiskCache.get_cache_filename] at h
  split at h
  · cases hh : u.host with
    | none => rw [hh] at h; exact COutcome.noConfusion h
    | some host =>
      rw [hh] at h
      cases hps : u.pathSegments with
      | none => rw [hps] at h; exact COutcome.noConfusion h
      | some segs =>
        rw [hps] at h
        simp only [COutcome.ok.injEq, Option.some.injEq] at h
        subst h
        simp
  · split at h
    · simp only [COutcome.ok.injEq] at h
      unfold url_to_filename at h
      cases hh : u.host with
      | none => rw [hh] at h; exact Option.noConfusion h
      | some hst =>
        rw [hh] at h
        simp only [Option.some.injEq] at h
        subst h
        simp
    · split at h
      · cases hfp : u.toFilePath with
        | error uerr => rw [hfp] at h; simp at h
        | ok path =>
          rw [hfp] at h
          simp only [COutcome.ok.injEq, Option.some.injEq] at h
          subst h
          by_cases habs : path.absolute
          · simp [PathBuf.join, habs]
          · simp [PathBuf.join, habs]
      · simp at h

/-! Claim theorems. -/

/-- C1: for every cache store with absolute root, every relative path `p`
and every byte buffer `data`, a successful `set p data` followed by
`get p` returns exactly `data`. -/
theorem c1_set_get_round_trip (store : DiskCache) (fs fs' : FS)
    (p : PathBuf) (data : List Nat) (habs : store.location.absolute = true)
    (hrel : p.absolute = false) (h : store.set fs p data = (fs', none)) :
    store.get fs' p = Except.ok data := by
  have hf : fs'.files (store.location.join p) = some data :=
    set_files_of_ok store fs fs' p data h
  simp [DiskCache.get, fsRead, hf]

theorem c1_set_get_round_trip_witness :
    DiskCache.get ⟨⟨true, ["r"]⟩⟩
      ((DiskCache.set ⟨⟨true, ["r"]⟩⟩ fsEmpty ⟨false, ["a", "b", "out.txt"]⟩
        [1, 2, 3]).1)
      ⟨false, ["a", "b", "out.txt"]⟩ = Except.ok [1, 2, 3] :=
  c1_set_get_round_trip ⟨⟨true, ["r"]⟩⟩ fsEmpty _
    ⟨false, ["a", "b", "out.txt"]⟩ [1, 2, 3] rfl rfl rfl

/-- C7: `get` on a path at which no file exists fails with a not-found IO
error (the raw OS error), not a panic and not a default value. -/
theorem c7_get_not_found (store : DiskCache) (fs : FS) (p : PathBuf)
    (h : fs.files (store.location.join p) = none) :
    store.get fs p = Except.error ⟨IOErrorKind.notFound, rawNotFoundMsg⟩ := by
  simp [DiskCache.get, fsRead, h]

theorem c7_get_not_found_witness :
    DiskCache.get ⟨⟨true, ["r"]⟩⟩ fsEmpty ⟨false, ["x"]⟩ =
      Except.error ⟨IOErrorKind.notFound, rawNotFoundMsg⟩ :=
  c7_get_not_found ⟨⟨true, ["r"]⟩⟩ fsEmpty ⟨false, ["x"]⟩ rfl

/-- C8: constructing the cache store with a non-absolute root panics
(contract violation), while an absolute root is stored verbatim with the
filesystem untouched (no directory creation). -/
theorem c8_new_contract (root : PathBuf) (fs : FS) :
    (root.absolute = true → DiskCache.new root fs = COutcome.ok (⟨root⟩, fs)) ∧
    (root.absolute = false → DiskCache.new root fs = COutcome.panicked) := by
  constructor <;> intro h <;> simp [DiskCache.new, h]

theorem c8_new_contract_witness :
    DiskCache.new ⟨true, ["r"]⟩ fsEmpty = COutcome.ok (⟨⟨true, ["r"]⟩⟩, fsEmpty) ∧
    DiskCache.new ⟨false, ["r"]⟩ fsEmpty = COutcome.panicked :=
  ⟨(c8_new_contract ⟨true, ["r"]⟩ fsEmpty).1 rfl,
   (c8_new_contract ⟨false, ["r"]⟩ fsEmpty).2 rfl⟩

/-- C10: when the filename argument is itself an absolute path, the join
ignores the configured root, so `get` reads that absolute path directly
and `set` writes it directly, outside the cache root. -/
theorem c10_absolute_filename_escapes_root (store : DiskCache) (fs : FS)
    (p : PathBuf) (data : List Nat) (habs : p.absolute = true) :
    store.location.join p = p ∧
    store.get fs p = fsRead fs p ∧
    (fs.mkdirErr = none → fs.writeErr = none →
      (store.set fs p data).2 = none ∧
        (store.set fs p data).1.files p = some data) := by
  have hj : store.location.join p = p := by simp [PathBuf.join, habs]
  refine ⟨hj, ?_, ?_⟩
  · simp [DiskCache.get, hj]
  · intro hm hw
    have hs := set_noerr store fs p data hm hw
    rwa [hj] at hs

theorem c10_absolute_filename_escapes_root_witness :
    PathBuf.join ⟨true, ["r"]⟩ ⟨true, ["etc", "out"]⟩ = ⟨true, ["etc", "out"]⟩ ∧
    DiskCache.get ⟨⟨true, ["r"]⟩⟩ fsEmpty ⟨true, ["etc", "out"]⟩ =
      fsRead fsEmpty ⟨true, ["etc", "out"]⟩ ∧
    ((DiskCache.set ⟨⟨true, ["r"]⟩⟩ fsEmpty ⟨true, ["etc", "out"]⟩ [9]).2 = none ∧
      (DiskCache.set ⟨⟨true, ["r"]⟩⟩ fsEmpty ⟨true, ["etc", "out"]⟩ [9]).1.files
        ⟨true, ["etc", "out"]⟩ = some [9]) :=
  ⟨(c10_absolute_filename_escapes_root ⟨⟨true, ["r"]⟩⟩ fsEmpty
      ⟨true, ["etc", "out"]⟩ [9] rfl).1,
   (c10_absolute_filename_escapes_root ⟨⟨true, ["r"]⟩⟩ fsEmpty
      ⟨true, ["etc", "out"]⟩ [9] rfl).2.1,
   (c10_absolute_filename_escapes_root ⟨⟨true, ["r"]⟩⟩ fsEmpty
      ⟨true, ["etc", "out"]⟩ [9] rfl).2.2 rfl rfl⟩

/-- C9: if a `set` call fails at any point before the rename into place,
the file previously stored at the target path is unchanged: no partially
written content is observable there. -/
theorem c9_failed_set_preserves_target (store : DiskCache) (fs fs' : FS)
    (p : PathBuf) (data : List Nat) (e : IOError)
    (h : store.set fs p data = (fs', some e)) :
    fs'.files (store.location.join p) = fs.files (store.location.join p) := by
  simp only [DiskCache.set] at h
  split at h
  · simp only [Prod.mk.injEq] at h
    obtain ⟨h1, _⟩ := h
    rw [← h1]
  · rename_i fs1 heq1
    have hfiles1 : fs1.files = fs.files := by
      cases hpd : (store.location.join p).parentDir with
      | some par =>
        rw [hpd] at heq1
        exact (ensure_dir_exists_ok_fields store fs fs1 par heq1).1
      | none =>
        rw [hpd] at heq1
        simp only [Except.ok.injEq] at heq1
        rw [← heq1]
    split at h
    · rename_i fs2 e2 heq2
      simp only [Prod.mk.injEq] at h
      obtain ⟨h1, _⟩ := h
      subst h1
      simp only [atomic_write_file] at heq2
      split at heq2
      · simp only [Prod.mk.injEq] at heq2
        obtain ⟨h2, _⟩ := heq2
        rw [← h2]
        have hne : store.location.join p ≠
            (⟨(store.location.join p).absolute,
              (store.location.join p).comps.dropLast ++
                [((store.location.join p).comps.getLast?.getD "") ++ ".tmp"]⟩ : PathBuf) :=
          fun hEq => tmp_sibling_ne (store.location.join p) hEq.symm
        simp [hne, hfiles1]
      · simp at heq2
    · simp at h

theorem c9_failed_set_preserves_target_witness :
    (DiskCache.set ⟨⟨true, ["r"]⟩⟩ fsWrFail ⟨false, ["a", "x"]⟩ [7]).1.files
        (PathBuf.join ⟨true, ["r"]⟩ ⟨false, ["a", "x"]⟩) =
      fsWrFail.files (PathBuf.join ⟨true, ["r"]⟩ ⟨false, ["a", "x"]⟩) :=
  c9_failed_set_preserves_target ⟨⟨true, ["r"]⟩⟩ fsWrFail _ ⟨false, ["a", "x"]⟩
    [7] (with_io_context ePerm (pathDebug (PathBuf.join ⟨true, ["r"]⟩ ⟨false, ["a", "x"]⟩))) rfl

/-- C5: whenever `get_cache_filename` returns a path, its first component
is the locator's scheme, so locators with different schemes yield
relative paths with different first components. -/
theorem c5_scheme_first_component (store : DiskCache) (u₁ u₂ : Url)
    (p₁ p₂ : PathBuf) :
    (store.get_cache_filename u₁ = COutcome.ok (some p₁) →
      p₁.comps.head? = some u₁.scheme) ∧
    (store.get_cache_filename u₁ = COutcome.ok (some p₁) →
      store.get_cache_filename u₂ = COutcome.ok (some p₂) →
      u₁.scheme ≠ u₂.scheme → p₁.comps.head? ≠ p₂.comps.head?) := by
  refine ⟨fun h => get_cache_filename_head store u₁ p₁ h, fun h₁ h₂ hs => ?_⟩
  rw [get_cache_filename_head store u₁ p₁ h₁,
    get_cache_filename_head store u₂ p₂ h₂]
  simp [hs]

theorem c5_scheme_first_component_witness :
    (⟨false, ["wasm", "h_PORT80", "x", "y"]⟩ : PathBuf).comps.head? =
      some (Url.scheme ⟨"wasm", some "h", some 80, some ["x", "y"], Except.error ()⟩) ∧
    (⟨false, ["wasm", "h_PORT80", "x", "y"]⟩ : PathBuf).comps.head? ≠
      (⟨false, ["file", "a"]⟩ : PathBuf).comps.head? :=
  ⟨(c5_scheme_first_component ⟨⟨true, ["r"]⟩⟩
      ⟨"wasm", some "h", some 80, some ["x", "y"], Except.error ()⟩
      ⟨"file", none, none, none, Except.ok ⟨true, ["a"]⟩⟩
      ⟨false, ["wasm", "h_PORT80", "x", "y"]⟩ ⟨false, ["file", "a"]⟩).1 rfl,
   (c5_scheme_first_component ⟨⟨true, ["r"]⟩⟩
      ⟨"wasm", some "h", some 80, some ["x", "y"], Except.error ()⟩
      ⟨"file", none, none, none, Except.ok ⟨true, ["a"]⟩⟩
      ⟨false, ["wasm", "h_PORT80", "x", "y"]⟩ ⟨false, ["file", "a"]⟩).2
      rfl rfl (by decide)⟩

/-- C6: on a POSIX target, a local-file locator whose file path is
`/a/b/c` derives the relative path `file/a/b/c`: the leading separator is
stripped and the scheme prefixed as the first component. -/
theorem c6_file_posix_path (store : DiskCache) (u : Url)
    (hs : u.scheme = "file")
    (hp : u.toFilePath = Except.ok ⟨true, ["a", "b", "c"]⟩) :
    store.get_cache_filename u =
      COutcome.ok (some ⟨false, ["file", "a", "b", "c"]⟩) := by
  simp [DiskCache.get_cache_filename, hs, hp, PathBuf.join]

theorem c6_file_posix_path_witness :
    DiskCache.get_cache_filename ⟨⟨true, ["r"]⟩⟩
      ⟨"file", none, none, none, Except.ok ⟨true, ["a", "b", "c"]⟩⟩ =
      COutcome.ok (some ⟨false, ["file", "a", "b", "c"]⟩) :=
  c6_file_posix_path ⟨⟨true, ["r"]⟩⟩
    ⟨"file", none, none, none, Except.ok ⟨true, ["a", "b", "c"]⟩⟩ rfl rfl

/-- C3 counterexample: a `wasm` locator with no host makes
`get_cache_filename` panic (the `unwrap` of `host_str`), so the claim
that such a locator yields `None` without a panic is false. -/
theorem c3_none_counterexample :
    DiskCache.get_cache_filename ⟨⟨true, ["r"]⟩⟩
      ⟨"wasm", none, none, none, Except.error ()⟩ = COutcome.panicked ∧
    DiskCache.get_cache_filename ⟨⟨true, ["r"]⟩⟩
      ⟨"wasm", none, none, none, Except.error ()⟩ ≠ COutcome.ok none := by
  constructor
  · rfl
  · intro h
    exact COutcome.noConfusion
      (show (COutcome.panicked : COutcome (Option PathBuf)) = COutcome.ok none
        from h)

/-- C3 amended: `get_cache_filename` returns `None` (not an error) when
the scheme is unrecognized or a local-file URL has no valid local path;
however, a `wasm` locator lacking a host, or lacking path segments,
makes it panic rather than return `None`. -/
theorem c3_none_amended (store : DiskCache) (u : Url) (h : String) :
    (u.scheme ∉ (["wasm", "http", "https", "data", "file"] : List String) →
      store.get_cache_filename u = COutcome.ok none) ∧
    (u.scheme = "file" → u.toFilePath = Except.error () →
      store.get_cache_filename u = COutcome.ok none) ∧
    (u.scheme = "wasm" → u.host = none →
      store.get_cache_filename u = COutcome.panicked) ∧
    (u.scheme = "wasm" → u.host = some h → u.pathSegments = none →
      store.get_cache_filename u = COutcome.panicked) := by
  refine ⟨fun hn => ?_, fun hf he => ?_, fun hw hh => ?_, fun hw hh hp => ?_⟩
  · have h₁ : ¬ (u.scheme = "wasm") := fun hh => hn (by simp [hh])
    have h₂ : ¬ (u.scheme = "http" ∨ u.scheme = "https" ∨ u.scheme = "data") := by
      rintro (hh | hh | hh) <;> exact hn (by simp [hh])
    have h₃ : ¬ (u.scheme = "file") := fun hh => hn (by simp [hh])
    simp [DiskCache.get_cache_filename, h₁, h₂, h₃]
  · simp [DiskCache.get_cache_filename, hf, he]
  · simp [DiskCache.get_cache_filename, hw, hh]
  · simp [DiskCache.get_cache_filename, hw, hh, hp]

theorem c3_none_amended_witness :
    DiskCache.get_cache_filename ⟨⟨true, ["r"]⟩⟩
      ⟨"foo", some "bar", none, some [""], Except.error ()⟩ = COutcome.ok none ∧
    DiskCache.get_cache_filename ⟨⟨true, ["r"]⟩⟩
      ⟨"file", some "h", none, none, Except.error ()⟩ = COutcome.ok none ∧
    DiskCache.get_cache_filename ⟨⟨true, ["r"]⟩⟩
      ⟨"wasm", none, some 80, some [], Except.error ()⟩ = COutcome.panicked ∧
    DiskCache.get_cache_filename ⟨⟨true, ["r"]⟩⟩
      ⟨"wasm", some "h", none, none, Except.error ()⟩ = COutcome.panicked :=
  ⟨(c3_none_amended ⟨⟨true, ["r"]⟩⟩
      ⟨"foo", some "bar", none, some [""], Except.error ()⟩ "h").1 (by decide),
   (c3_none_amended ⟨⟨true, ["r"]⟩⟩
      ⟨"file", some "h", none, none, Except.error ()⟩ "h").2.1 rfl rfl,
   (c3_none_amended ⟨⟨true, ["r"]⟩⟩
      ⟨"wasm", none, some 80, some [], Except.error ()⟩ "h").2.2.1 rfl rfl,
   (c3_none_amended ⟨⟨true, ["r"]⟩⟩
      ⟨"wasm", some "h", none, none, Except.error ()⟩ "h").2.2.2 rfl rfl rfl⟩

/-- C2: for a locator whose base path derivation succeeds, appending an
extension `e` keeps the base path's last component intact and appends
`.e` to it: with no existing extension the result is the base with
extension `e`; with an existing extension `o` the final extension is
`o.e` (dot-joined, not replaced). -/
theorem c2_extension_composition (store : DiskCache) (u : Url) (e : String)
    (base : PathBuf) (f : String)
    (hb : store.get_cache_filename u = COutcome.ok (some base))
    (hf : base.comps.getLast? = some f) :
    store.get_cache_filename_with_extension u e =
      COutcome.ok (some ⟨base.absolute, base.comps.dropLast ++
        [match rustExtension f with
         | none => if e = "" then f else f ++ "." ++ e
         | some _ => f ++ "." ++ e]⟩) := by
  unfold DiskCache.get_cache_filename_with_extension
  rw [hb]
  dsimp only
  unfold PathBuf.extensionM PathBuf.withExtensionM withExtensionName
  rw [hf]
  dsimp only
  cases hx : rustExtension f with
  | none =>
    dsimp only
    rw [rustStem_of_no_ext f hx]
    by_cases he : e = ""
    · rw [if_pos he, if_pos he, string_append_empty]
    · rw [if_neg he, if_neg he, string_append_assoc]
  | some o =>
    dsimp only
    have hne : ¬ (o ++ "." ++ e = "") := by
      intro hcon
      have hlen := congrArg String.length hcon
      rw [String.length_append, String.length_append] at hlen
      have hd : ("." : String).length = 1 := rfl
      rw [hd] at hlen
      simp at hlen
    rw [if_neg hne]
    have hsplit := rustStem_dot_ext f o hx
    have hkey : rustStem f ++ ("." ++ (o ++ "." ++ e)) = f ++ "." ++ e := by
      have hassoc : ∀ s : String,
          s ++ ("." ++ (o ++ "." ++ e)) = ((s ++ ".") ++ o) ++ "." ++ e := by
        intro s
        apply String.ext
        simp [String.data_append, List.append_assoc]
      rw [hassoc (rustStem f), ← hsplit]
    rw [hkey]

theorem c2_extension_composition_witness :
    DiskCache.get_cache_filename_with_extension ⟨⟨true, ["r"]⟩⟩
      ⟨"http", some "example.com", some 8080, some ["p", "q.ts"], Except.error ()⟩
      "js" =
      COutcome.ok (some ⟨false, ["http", "example.com_8080", "p", "q.ts.js"]⟩) :=
  c2_extension_composition ⟨⟨true, ["r"]⟩⟩
    ⟨"http", some "example.com", some 8080, some ["p", "q.ts"], Except.error ()⟩
    "js" ⟨false, ["http", "example.com_8080", "p", "q.ts"]⟩ "q.ts" rfl rfl

/-- C4 counterexample: a failing `get` surfaces the raw read error, whose
message does not mention the path involved in any form, so the claim that
every IO failure surfaced by the store is annotated with the path is
false. -/
theorem c4_io_context_counterexample :
    DiskCache.get ⟨⟨true, ["r"]⟩⟩ fsEmpty ⟨false, ["x"]⟩ =
      Except.error ⟨IOErrorKind.notFound, rawNotFoundMsg⟩ ∧
    strContains rawNotFoundMsg
      (pathRepr (PathBuf.join ⟨true, ["r"]⟩ ⟨false, ["x"]⟩)) = false ∧
    strContains rawNotFoundMsg
      (pathDebug (PathBuf.join ⟨true, ["r"]⟩ ⟨false, ["x"]⟩)) = false := by
  refine ⟨rfl, ?_, ?_⟩ <;> decide

/-- C4 amended: errors from `ensure_dir_exists` and from `set` are
annotated with the directory or target path and preserve the original
error kind, but a failing `get` surfaces the raw read error unannotated
(its kind, not-found, is still preserved). -/
theorem c4_io_context_amended (store : DiskCache) (fs : FS) (p par : PathBuf)
    (data : List Nat) (e e' : IOError) :
    (store.get fs p = Except.error e' →
      e' = ⟨IOErrorKind.notFound, rawNotFoundMsg⟩) ∧
    (fs.dirs par = false → fs.mkdirErr = some e →
      store.ensure_dir_exists fs par = Except.error e' →
      e'.kind = e.kind ∧ strContains e'.msg (pathDebug par) = true) ∧
    (fs.mkdirErr = none → fs.writeErr = some e →
      (store.set fs p data).2 = some e' →
      e'.kind = e.kind ∧
        strContains e'.msg (pathDebug (store.location.join p)) = true) ∧
    ((store.location.join p).parentDir = some par → fs.dirs par = false →
      fs.mkdirErr = some e → (store.set fs p data).2 = some e' →
      e'.kind = e.kind ∧ strContains e'.msg (pathDebug par) = true) := by
  refine ⟨fun hg => ?_, fun hd hm he => ?_, fun hm hw hs => ?_,
    fun hpd hd hm hs => ?_⟩
  · unfold DiskCache.get fsRead at hg
    cases hfl : fs.files (store.location.join p) with
    | some d => rw [hfl] at hg; exact Except.noConfusion hg
    | none =>
      rw [hfl] at hg
      simp only [Except.error.injEq] at hg
      exact hg.symm
  · rw [ensure_dir_exists_err_msg store fs par e hd hm] at he
    simp only [Except.error.injEq] at he
    subst he
    exact ⟨rfl, strContains_sandwich _ (pathDebug par) _⟩
  · rw [set_write_err store fs p data e hm hw] at hs
    simp only [Option.some.injEq] at hs
    subst hs
    exact ⟨rfl, strContains_sandwich _ (pathDebug (store.location.join p)) _⟩
  · rw [set_mkdir_err store fs p par data e hpd hd hm] at hs
    simp only [Option.some.injEq] at hs
    subst hs
    exact ⟨rfl, strContains_sandwich _ (pathDebug par) _⟩

theorem c4_io_context_amended_witness :
    ((⟨IOErrorKind.notFound, rawNotFoundMsg⟩ : IOError) =
      ⟨IOErrorKind.notFound, rawNotFoundMsg⟩) ∧
    (eDirFail.kind = ePerm.kind ∧
      strContains eDirFail.msg (pathDebug ⟨true, ["r", "a"]⟩) = true) ∧
    (eWrWrapped.kind = ePerm.kind ∧
      strContains eWrWrapped.msg
        (pathDebug (PathBuf.join ⟨true, ["r"]⟩ ⟨false, ["a", "x"]⟩)) = true) ∧
    (eDirFail.kind = ePerm.kind ∧
      strContains eDirFail.msg (pathDebug ⟨true, ["r", "a"]⟩) = true) :=
  ⟨(c4_io_context_amended ⟨⟨true, ["r"]⟩⟩ fsEmpty ⟨false, ["x"]⟩
      ⟨true, ["r", "a"]⟩ [] ePerm ⟨IOErrorKind.notFound, rawNotFoundMsg⟩).1 rfl,
   (c4_io_context_amended ⟨⟨true, ["r"]⟩⟩ fsMkFail ⟨false, ["a", "x"]⟩
      ⟨true, ["r", "a"]⟩ [] ePerm eDirFail).2.1 rfl rfl rfl,
   (c4_io_context_amended ⟨⟨true, ["r"]⟩⟩ fsWrFail ⟨false, ["a", "x"]⟩
      ⟨true, ["r", "a"]⟩ [5] ePerm eWrWrapped).2.2.1 rfl rfl rfl,
   (c4_io_context_amended ⟨⟨true, ["r"]⟩⟩ fsMkFail ⟨false, ["a", "x"]⟩
      ⟨true, ["r", "a"]⟩ [5] ePerm eDirFail).2.2.2 rfl rfl rfl rfl⟩
